import Mathlib

/-!
Shallow embedding of the geometry / viewport / label core of `src/App.tsx`
(ASEAN map page). JavaScript numbers are modelled by a linear ordered field:
the projection pipeline is instantiated at `ℝ` (Mercator needs `log`/`tan`),
while the viewport state machine and concrete witnesses use `ℚ`, where every
operation of the source is executable.
-/

set_option maxHeartbeats 1000000
set_option maxRecDepth 100000

namespace AseanMap

/-- The `Bounds` record of App.tsx: axis-aligned box in projected-plane or
screen units. -/
structure Bounds (α : Type) where
  minX : α
  minY : α
  maxX : α
  maxY : α
deriving DecidableEq, Repr

/-- The `ViewBox` record of App.tsx: visible rectangle of the 960×620 canvas. -/
structure ViewBox (α : Type) where
  x : α
  y : α
  width : α
  height : α
deriving DecidableEq, Repr

/-- `MAP_WIDTH = 960` (App.tsx line 116). -/
def MAP_WIDTH {α : Type} [LinearOrderedField α] : α := 960

/-- `MAP_HEIGHT = 620` (App.tsx line 117). -/
def MAP_HEIGHT {α : Type} [LinearOrderedField α] : α := 620

/-- `MAP_PADDING = 24` (App.tsx line 118). -/
def MAP_PADDING {α : Type} [LinearOrderedField α] : α := 24

/-- `ASEAN_FOCUS_PADDING = 1.0` (App.tsx line 119). -/
def ASEAN_FOCUS_PADDING {α : Type} [LinearOrderedField α] : α := 1

/-- `COUNTRY_PADDING_FACTOR = 1.22` (App.tsx line 120). -/
def COUNTRY_PADDING_FACTOR {α : Type} [LinearOrderedField α] : α := 122 / 100

/-- `INDONESIA_PADDING_FACTOR = 0.9` (App.tsx line 121). -/
def INDONESIA_PADDING_FACTOR {α : Type} [LinearOrderedField α] : α := 9 / 10

/-- `INDONESIA_MIN_SCALE = 1.58` (App.tsx line 122). -/
def INDONESIA_MIN_SCALE {α : Type} [LinearOrderedField α] : α := 158 / 100

/-- `MIN_COUNTRY_SCALE = 1.0` (App.tsx line 123). -/
def MIN_COUNTRY_SCALE {α : Type} [LinearOrderedField α] : α := 1

/-- `MAX_COUNTRY_SCALE = 10` (App.tsx line 124). -/
def MAX_COUNTRY_SCALE {α : Type} [LinearOrderedField α] : α := 10

/-- `ZOOM_ANIMATION_MS = 360` (App.tsx line 125). -/
def ZOOM_ANIMATION_MS {α : Type} [LinearOrderedField α] : α := 360

/-- `RESET_ANIMATION_MS = 500` (App.tsx line 126). -/
def RESET_ANIMATION_MS {α : Type} [LinearOrderedField α] : α := 500

/-- `LABEL_EXIT_TOTAL_MS = 860` (App.tsx line 127). -/
def LABEL_EXIT_TOTAL_MS {α : Type} [LinearOrderedField α] : α := 860

/-- `FULL_VIEWBOX = { x: 0, y: 0, width: MAP_WIDTH, height: MAP_HEIGHT }`. -/
def FULL_VIEWBOX {α : Type} [LinearOrderedField α] : ViewBox α :=
  { x := 0, y := 0, width := MAP_WIDTH, height := MAP_HEIGHT }

/-- `clamp(value, min, max) = Math.min(max, Math.max(min, value))`
(App.tsx lines 771-773). -/
def clamp {α : Type} [LinearOrder α] (value lo hi : α) : α :=
  min hi (max lo value)

/-- `mergeBounds` (App.tsx lines 716-723): component-wise min/max union. -/
def mergeBounds {α : Type} [LinearOrder α] (base next : Bounds α) : Bounds α :=
  { minX := min base.minX next.minX
    minY := min base.minY next.minY
    maxX := max base.maxX next.maxX
    maxY := max base.maxY next.maxY }

/-- The `scale` local of `viewBoxForCountry` (App.tsx lines 776-788).
The source's local names `fitWidthRatio` / `fitHeightRatio` are rendered
as `fitW` / `fitH`. -/
def countryScale {α : Type} [LinearOrderedField α]
    (countryName : String) (bounds : Bounds α) : α :=
  let width := max (bounds.maxX - bounds.minX) (MAP_WIDTH * (5 / 100))
  let height := max (bounds.maxY - bounds.minY) (MAP_HEIGHT * (5 / 100))
  let paddingFactor : α :=
    if countryName = "インドネシア" then INDONESIA_PADDING_FACTOR else COUNTRY_PADDING_FACTOR
  let fitW : α := if countryName = "インドネシア" then 1 else 9 / 10
  let fitH : α := if countryName = "インドネシア" then 92 / 100 else 9 / 10
  let fitScale :=
    min (MAP_WIDTH * fitW / (width * paddingFactor))
        (MAP_HEIGHT * fitH / (height * paddingFactor))
  let minScale : α :=
    if countryName = "インドネシア" then INDONESIA_MIN_SCALE else MIN_COUNTRY_SCALE
  clamp (max minScale fitScale) MIN_COUNTRY_SCALE MAX_COUNTRY_SCALE

/-- `viewBoxForCountry(countryName, bounds)` (App.tsx lines 775-800), with the
scale computation named `countryScale`. -/
def viewBoxForCountry {α : Type} [LinearOrderedField α]
    (countryName : String) (bounds : Bounds α) : ViewBox α :=
  let scale := countryScale countryName bounds
  let centerX := (bounds.minX + bounds.maxX) / 2
  let centerY := (bounds.minY + bounds.maxY) / 2
  let zoomWidth := MAP_WIDTH / scale
  let zoomHeight := MAP_HEIGHT / scale
  { x := clamp (centerX - zoomWidth / 2) 0 (MAP_WIDTH - zoomWidth)
    y := clamp (centerY - zoomHeight / 2) 0 (MAP_HEIGHT - zoomHeight)
    width := zoomWidth
    height := zoomHeight }

section ViewBoxLemmas

variable {α : Type} [LinearOrderedField α]

lemma clamp_le_hi (value lo hi : α) : clamp value lo hi ≤ hi :=
  min_le_left _ _

lemma lo_le_clamp (value lo hi : α) (h : lo ≤ hi) : lo ≤ clamp value lo hi :=
  le_min h (le_max_left _ _)

/-- The scale chosen by `viewBoxForCountry` is at least 1. -/
lemma one_le_countryScale (countryName : String) (bounds : Bounds α) :
    1 ≤ countryScale countryName bounds := by
  unfold countryScale
  exact lo_le_clamp _ _ _ (by norm_num [MIN_COUNTRY_SCALE, MAX_COUNTRY_SCALE])

/-- The scale chosen by `viewBoxForCountry` is at most 10. -/
lemma countryScale_le_ten (countryName : String) (bounds : Bounds α) :
    countryScale countryName bounds ≤ 10 := by
  unfold countryScale
  simpa [MAX_COUNTRY_SCALE] using clamp_le_hi _ MIN_COUNTRY_SCALE (MAX_COUNTRY_SCALE : α)

lemma countryScale_pos (countryName : String) (bounds : Bounds α) :
    0 < countryScale countryName bounds :=
  lt_of_lt_of_le one_pos (one_le_countryScale countryName bounds)

lemma viewBoxForCountry_within (countryName : String) (bounds : Bounds α) :
    0 ≤ (viewBoxForCountry countryName bounds).x ∧
    (viewBoxForCountry countryName bounds).x + (viewBoxForCountry countryName bounds).width
      ≤ MAP_WIDTH ∧
    0 ≤ (viewBoxForCountry countryName bounds).y ∧
    (viewBoxForCountry countryName bounds).y + (viewBoxForCountry countryName bounds).height
      ≤ MAP_HEIGHT := by
  have h1 : 1 ≤ countryScale countryName bounds := one_le_countryScale countryName bounds
  have hw : MAP_WIDTH / countryScale countryName bounds ≤ MAP_WIDTH :=
    div_le_self (by norm_num [MAP_WIDTH]) h1
  have hh : MAP_HEIGHT / countryScale countryName bounds ≤ MAP_HEIGHT :=
    div_le_self (by norm_num [MAP_HEIGHT]) h1
  simp only [viewBoxForCountry]
  refine ⟨lo_le_clamp _ _ _ (by linarith), ?_, lo_le_clamp _ _ _ (by linarith), ?_⟩
  · have := clamp_le_hi
      ((bounds.minX + bounds.maxX) / 2 - MAP_WIDTH / countryScale countryName bounds / 2) 0
      (MAP_WIDTH - MAP_WIDTH / countryScale countryName bounds)
    linarith
  · have := clamp_le_hi
      ((bounds.minY + bounds.maxY) / 2 - MAP_HEIGHT / countryScale countryName bounds / 2) 0
      (MAP_HEIGHT - MAP_HEIGHT / countryScale countryName bounds)
    linarith

lemma viewBoxForCountry_width_eq (countryName : String) (bounds : Bounds α) :
    (viewBoxForCountry countryName bounds).width = MAP_WIDTH / countryScale countryName bounds ∧
    (viewBoxForCountry countryName bounds).height = MAP_HEIGHT / countryScale countryName bounds := by
  simp [viewBoxForCountry]

end ViewBoxLemmas

/-- C1: for every country name and every input `Bounds` (degenerate ones
included), the viewBox produced by `viewBoxForCountry` never extends past the
fixed 960×620 canvas: `0 ≤ x`, `x + width ≤ 960`, `0 ≤ y`, `y + height ≤ 620`. -/
theorem viewBoxForCountry_stays_in_canvas (countryName : String) (bounds : Bounds ℝ) :
    0 ≤ (viewBoxForCountry countryName bounds).x ∧
    (viewBoxForCountry countryName bounds).x + (viewBoxForCountry countryName bounds).width
      ≤ 960 ∧
    0 ≤ (viewBoxForCountry countryName bounds).y ∧
    (viewBoxForCountry countryName bounds).y + (viewBoxForCountry countryName bounds).height
      ≤ 620 := by
  have h := viewBoxForCountry_within countryName bounds
  simpa [MAP_WIDTH, MAP_HEIGHT] using h

/-- C8: `mergeBounds` (component-wise min/max union) is associative. -/
theorem mergeBounds_assoc (a b c : Bounds ℝ) :
    mergeBounds (mergeBounds a b) c = mergeBounds a (mergeBounds b c) := by
  simp [mergeBounds, min_assoc, max_assoc]

/-- C9: `viewBoxForCountry` always returns a viewBox of size
`960/s × 620/s` for a single scale `s` clamped into `[1, 10]`; hence its
aspect is exactly `960/620`, `96 ≤ width ≤ 960` and `62 ≤ height ≤ 620`. -/
theorem viewBoxForCountry_scale_shape (countryName : String) (bounds : Bounds ℝ) :
    ∃ s : ℝ, 1 ≤ s ∧ s ≤ 10 ∧
      (viewBoxForCountry countryName bounds).width = 960 / s ∧
      (viewBoxForCountry countryName bounds).height = 620 / s ∧
      (viewBoxForCountry countryName bounds).width /
        (viewBoxForCountry countryName bounds).height = 960 / 620 ∧
      96 ≤ (viewBoxForCountry countryName bounds).width ∧
      (viewBoxForCountry countryName bounds).width ≤ 960 ∧
      62 ≤ (viewBoxForCountry countryName bounds).height ∧
      (viewBoxForCountry countryName bounds).height ≤ 620 := by
  obtain ⟨hwidth, hheight⟩ := viewBoxForCountry_width_eq countryName bounds
  have h1 : 1 ≤ countryScale countryName bounds := one_le_countryScale countryName bounds
  have h10 : countryScale countryName bounds ≤ 10 := countryScale_le_ten countryName bounds
  have hpos : 0 < countryScale countryName bounds := countryScale_pos countryName bounds
  have hne : countryScale countryName bounds ≠ 0 := ne_of_gt hpos
  refine ⟨countryScale countryName bounds, h1, h10, ?_, ?_, ?_, ?_, ?_, ?_, ?_⟩
  · simpa [MAP_WIDTH] using hwidth
  · simpa [MAP_HEIGHT] using hheight
  · rw [hwidth, hheight]
    rw [MAP_WIDTH, MAP_HEIGHT]
    field_simp
  · rw [hwidth, MAP_WIDTH, le_div_iff₀ hpos]
    linarith
  · rw [hwidth, MAP_WIDTH]
    calc (960 : ℝ) / countryScale countryName bounds ≤ 960 / 1 := by
          exact div_le_div_of_nonneg_left (by norm_num) one_pos h1
      _ = 960 := by norm_num
  · rw [hheight, MAP_HEIGHT, le_div_iff₀ hpos]
    linarith
  · rw [hheight, MAP_HEIGHT]
    calc (620 : ℝ) / countryScale countryName bounds ≤ 620 / 1 := by
          exact div_le_div_of_nonneg_left (by norm_num) one_pos h1
      _ = 620 := by norm_num

/-! ## Mercator projection (App.tsx lines 544-552) -/

/-- `clampLat(latDeg) = Math.max(-85, Math.min(85, latDeg))`
(App.tsx lines 544-546). -/
noncomputable def clampLat (latDeg : ℝ) : ℝ := max (-85) (min 85 latDeg)

/-- `mercatorProject(coord)` (App.tsx lines 548-552): longitude/latitude
degrees to spherical-Mercator plane coordinates
`(lonRad, log (tan (π/4 + latRad/2)))`, the latitude clamped to `[-85, 85]`
first. -/
noncomputable def mercatorProject (coord : ℝ × ℝ) : ℝ × ℝ :=
  (coord.1 * Real.pi / 180,
   Real.log (Real.tan (Real.pi / 4 + clampLat coord.2 * Real.pi / 180 / 2)))

lemma clampLat_eq_self {lat : ℝ} (h1 : -85 ≤ lat) (h2 : lat ≤ 85) :
    clampLat lat = lat := by
  unfold clampLat
  rw [min_eq_right h2, max_eq_right h1]

/-- Strict monotonicity of the Mercator `y` output in the latitude, on the
clamp-free band `[-85, 85]`. -/
lemma mercatorProject_y_lt (lon1 lon2 : ℝ) {lat1 lat2 : ℝ}
    (h1 : -85 ≤ lat1) (h2 : lat2 ≤ 85) (h : lat1 < lat2) :
    (mercatorProject (lon1, lat1)).2 < (mercatorProject (lon2, lat2)).2 := by
  have hπ : (0 : ℝ) < Real.pi := Real.pi_pos
  have hc1 : clampLat lat1 = lat1 := clampLat_eq_self h1 (le_of_lt (lt_of_lt_of_le h h2))
  have hc2 : clampLat lat2 = lat2 := clampLat_eq_self (le_of_lt (lt_of_le_of_lt h1 h)) h2
  simp only [mercatorProject, hc1, hc2]
  set θ1 := Real.pi / 4 + lat1 * Real.pi / 180 / 2 with hθ1
  set θ2 := Real.pi / 4 + lat2 * Real.pi / 180 / 2 with hθ2
  have hm1 : -85 * Real.pi ≤ lat1 * Real.pi := by nlinarith
  have hm2 : lat2 * Real.pi ≤ 85 * Real.pi := by nlinarith
  have hmlt : lat1 * Real.pi < lat2 * Real.pi := by nlinarith
  have hθ1pos : 0 < θ1 := by rw [hθ1]; nlinarith
  have hθ2lt : θ2 < Real.pi / 2 := by rw [hθ2]; nlinarith
  have hθlt : θ1 < θ2 := by rw [hθ1, hθ2]; nlinarith
  have htanpos : 0 < Real.tan θ1 :=
    Real.tan_pos_of_pos_of_lt_pi_div_two hθ1pos (lt_trans hθlt hθ2lt)
  have htanlt : Real.tan θ1 < Real.tan θ2 :=
    Real.tan_lt_tan_of_lt_of_lt_pi_div_two (by nlinarith) hθ2lt hθlt
  exact Real.log_lt_log htanpos htanlt

/-- C7: on coordinates whose latitude lies within `[-85, 85]`, the Mercator
projection is strictly increasing in longitude for its `x` output and
strictly increasing in latitude for its `y` output. -/
theorem mercatorProject_mono (p q : ℝ × ℝ)
    (hp1 : -85 ≤ p.2) (_hp2 : p.2 ≤ 85) (_hq1 : -85 ≤ q.2) (hq2 : q.2 ≤ 85) :
    (p.1 < q.1 → (mercatorProject p).1 < (mercatorProject q).1) ∧
    (p.2 < q.2 → (mercatorProject p).2 < (mercatorProject q).2) := by
  constructor
  · intro hlt
    simp only [mercatorProject]
    have := mul_lt_mul_of_pos_right hlt Real.pi_pos
    linarith
  · intro hlt
    have := mercatorProject_y_lt p.1 q.1 hp1 hq2 hlt
    simpa using this

/-- Witness for C7 at concrete coordinates. -/
theorem mercatorProject_mono_witness :
    (mercatorProject (0, 0)).1 < (mercatorProject (1, 45)).1 ∧
    (mercatorProject (0, 0)).2 < (mercatorProject (0, 45)).2 := by
  constructor
  · exact (mercatorProject_mono (0, 0) (1, 45) (by norm_num) (by norm_num) (by norm_num)
      (by norm_num)).1 (by norm_num)
  · exact (mercatorProject_mono (0, 0) (0, 45) (by norm_num) (by norm_num) (by norm_num)
      (by norm_num)).2 (by norm_num)

/-! ## Untyped JSON geometry values (App.tsx lines 554-626) -/

/-- Model of the untyped JSON values (`unknown`) flowing through the geometry
pipeline: numbers, strings, arrays, and a catch-all `other` for every
remaining JS value (booleans, null/undefined, plain objects). Numbers are
modelled by `α`; strings are kept separate from `other` because a string is
the one non-array value the `for … of` loops iterate instead of throwing
on. -/
inductive JVal (α : Type) where
  | num : α → JVal α
  | str : String → JVal α
  | arr : List (JVal α) → JVal α
  | other : JVal α

/-- `isCoordinate(value)` (App.tsx lines 554-561): an array of length ≥ 2
whose first two entries are numbers. -/
def isCoordinate {α : Type} : JVal α → Bool
  | JVal.arr (JVal.num _ :: JVal.num _ :: _) => true
  | _ => false

/-- The coordinate pair read off a value that passes `isCoordinate`: the
first two (numeric) entries of the array. `none` exactly when `isCoordinate`
is false. -/
def asCoord {α : Type} : JVal α → Option (α × α)
  | JVal.arr (JVal.num a :: JVal.num b :: _) => some (a, b)
  | _ => none

lemma isCoordinate_iff_asCoord {α : Type} (v : JVal α) :
    isCoordinate v = true ↔ (asCoord v).isSome := by
  cases v with
  | num a => simp [isCoordinate, asCoord]
  | str s => simp [isCoordinate, asCoord]
  | other => simp [isCoordinate, asCoord]
  | arr l =>
    match l with
    | [] => simp [isCoordinate, asCoord]
    | [x] => cases x <;> simp [isCoordinate, asCoord]
    | x :: y :: rest => cases x <;> cases y <;> simp [isCoordinate, asCoord]

/-- The `Geometry` record (App.tsx lines 7-10): a `type` tag and optional
untyped `coordinates`. -/
structure Geometry (α : Type) where
  type : String
  coordinates : Option (JVal α)

/-- The `Feature` record (App.tsx lines 12-18); `properties?.iso3` and
`properties?.name` are collapsed into optional fields (a missing `properties`
object makes both absent). -/
structure Feature (α : Type) where
  iso3 : Option String
  name : Option String
  geometry : Option (Geometry α)

/-- `geometryToPolygons(geometry)` (App.tsx lines 563-585): the raw polygon
values. A `Polygon` geometry yields its (checked) coordinates array as the
single polygon; a `MultiPolygon` yields its elements unchecked — the
`multiPolygon as Polygon[]` cast (App.tsx line 581) lets non-array junk
through, to blow up only when a consumer iterates it. The JS truthiness
test `!geometry.coordinates` can only differ from a presence test on
non-array values, which already yield `[]` below. -/
def geometryToPolygons {α : Type} : Option (Geometry α) → List (JVal α)
  | none => []
  | some g =>
    match g.coordinates with
    | none => []
    | some c =>
      if g.type = "Polygon" then
        match c with
        | JVal.arr _ => [c]
        | _ => []
      else if g.type = "MultiPolygon" then
        match c with
        | JVal.arr polys => polys
        | _ => []
      else []

/-- The sequence produced by `for (const ring of polygon)` (App.tsx lines
596 and 681): the elements of an array, the one-character strings of a
string (the one non-array iterable this data model can produce), and `none`
— a thrown TypeError — for every other value. -/
def forOf {α : Type} : JVal α → Option (List (JVal α))
  | JVal.arr rs => some rs
  | JVal.str s => some (s.data.map fun c => JVal.str (String.mk [c]))
  | _ => none

/-- Total completion of `for (const ring of polygon)`: where the source
throws (`forOf` is `none`) the run is completed as an empty iteration. The
fallible functions below model the throw itself; this completion keeps the
`buildMapPaths`/projector model a function, and agrees with the source on
every non-throwing execution (`collectPoints_agrees`,
`polyDataOpt_agrees`). -/
def forOfD {α : Type} (polygon : JVal α) : List (JVal α) :=
  (forOf polygon).getD []

/-- One step of the running min/max fold. The source starts from the
`±Infinity` sentinel and finally tests `Number.isFinite`; since every
projected point is a finite real, that is modelled by an `Option` accumulator
(`none` ≡ still the untouched sentinel). -/
def foldPoint {α : Type} [LinearOrder α] : Option (Bounds α) → α × α → Option (Bounds α)
  | none, xy => some { minX := xy.1, minY := xy.2, maxX := xy.1, maxY := xy.2 }
  | some b, xy =>
      some { minX := min b.minX xy.1, minY := min b.minY xy.2,
             maxX := max b.maxX xy.1, maxY := max b.maxY xy.2 }

/-- The ring-level filter of the inner loops: the iterated values that pass
`Array.isArray` (App.tsx lines 597-599); a non-array ring is skipped, never
thrown on. -/
def ringList {α : Type} (rings : List (JVal α)) : List (List (JVal α)) :=
  rings.filterMap fun ring =>
    match ring with
    | JVal.arr r => some r
    | _ => none

/-- The lon/lat pairs the traversal of `collectProjectedBounds` visits, with
every non-iterable polygon completed as an empty iteration (`forOfD`):
the total companion of `collectPoints?` below. -/
def collectPoints {α : Type} (features : List (Feature α)) : List (α × α) :=
  features.flatMap fun feature =>
    (geometryToPolygons feature.geometry).flatMap fun polygon =>
      (ringList (forOfD polygon)).flatMap fun ring => ring.filterMap asCoord

/-- The point loop of `collectProjectedBounds` over one raw polygon (App.tsx
lines 596-609): `none` when `for (const ring of polygon)` throws. -/
def polygonPoints? {α : Type} (polygon : JVal α) : Option (List (α × α)) :=
  (forOf polygon).map fun rings =>
    (ringList rings).flatMap fun ring => ring.filterMap asCoord

/-- The polygon loop of `collectProjectedBounds` over one feature: stops at
the first throw. -/
def polygonsPoints? {α : Type} : List (JVal α) → Option (List (α × α))
  | [] => some []
  | p :: ps =>
    match polygonPoints? p with
    | none => none
    | some pts => (polygonsPoints? ps).map fun rest => pts ++ rest

/-- The lon/lat pairs visited by `collectProjectedBounds` (App.tsx lines
593-611): every valid coordinate of every array ring of every polygon of
every feature, in source order — or `none` when some
`for (const ring of polygon)` throws a TypeError on a non-iterable
polygon. -/
def collectPoints? {α : Type} : List (Feature α) → Option (List (α × α))
  | [] => some []
  | f :: fs =>
    match polygonsPoints? (geometryToPolygons f.geometry) with
    | none => none
    | some pts => (collectPoints? fs).map fun rest => pts ++ rest

lemma polygonPoints_agrees {α : Type} (p : JVal α) (a : List (α × α))
    (h : polygonPoints? p = some a) :
    ((ringList (forOfD p)).flatMap fun ring => ring.filterMap asCoord) = a := by
  rw [polygonPoints?] at h
  cases hf : forOf p with
  | none => rw [hf] at h; cases h
  | some rings =>
    rw [hf, Option.map_some'] at h
    rw [forOfD, hf, Option.getD_some]
    exact Option.some.inj h

lemma polygonsPoints_agrees {α : Type} (ps : List (JVal α)) (a : List (α × α))
    (h : polygonsPoints? ps = some a) :
    (ps.flatMap fun polygon =>
      (ringList (forOfD polygon)).flatMap fun ring => ring.filterMap asCoord) = a := by
  induction ps generalizing a with
  | nil => simpa [polygonsPoints?] using h
  | cons p ps ih =>
    rw [polygonsPoints?] at h
    cases hp : polygonPoints? p with
    | none =>
      rw [hp] at h
      simp at h
    | some b =>
      rw [hp] at h
      dsimp only at h
      cases hr : polygonsPoints? ps with
      | none =>
        rw [hr] at h
        simp at h
      | some rest =>
        rw [hr, Option.map_some'] at h
        rw [List.flatMap_cons, polygonPoints_agrees p b hp, ih rest hr]
        exact Option.some.inj h

/-- On every non-throwing traversal the completed point list is the real
one. -/
lemma collectPoints_agrees {α : Type} (features : List (Feature α))
    (pts : List (α × α)) (h : collectPoints? features = some pts) :
    collectPoints features = pts := by
  induction features generalizing pts with
  | nil => simpa [collectPoints?, collectPoints] using h
  | cons f fs ih =>
    rw [collectPoints?] at h
    cases hp : polygonsPoints? (geometryToPolygons f.geometry) with
    | none =>
      rw [hp] at h
      simp at h
    | some a =>
      rw [hp] at h
      dsimp only at h
      cases hr : collectPoints? fs with
      | none =>
        rw [hr] at h
        simp at h
      | some rest =>
        rw [hr, Option.map_some'] at h
        rw [collectPoints, List.flatMap_cons,
          polygonsPoints_agrees (geometryToPolygons f.geometry) a hp]
        have htail : (fs.flatMap fun feature =>
            (geometryToPolygons feature.geometry).flatMap fun polygon =>
              (ringList (forOfD polygon)).flatMap fun ring =>
                ring.filterMap asCoord) = rest := by
          rw [← ih rest hr, collectPoints]
        rw [htail]
        exact Option.some.inj h

/-- `collectProjectedBounds(features)` (App.tsx lines 587-626): fold the
Mercator projection of every valid coordinate into a running min/max; when
nothing was folded (the `±Infinity` sentinel survives the loop and the
`Number.isFinite` test fails) fall back to the projected whole-world clamped
range `[left, right] × [bottom, top]` with
`[left, top] = project([-180, 85])` and `[right, bottom] = project([180, -85])`.
The `none` result models the TypeError thrown at
`for (const ring of polygon)` (App.tsx line 596) when a `MultiPolygon`
smuggles in a non-iterable polygon. -/
noncomputable def collectProjectedBounds (features : List (Feature ℝ)) :
    Option (Bounds ℝ) :=
  (collectPoints? features).map fun pts =>
    match (pts.map mercatorProject).foldl foldPoint none with
    | some b => b
    | none =>
        { minX := (mercatorProject (-180, 85)).1
          minY := (mercatorProject (180, -85)).2
          maxX := (mercatorProject (180, -85)).1
          maxY := (mercatorProject (-180, 85)).2 }

/-- Total companion of `collectProjectedBounds` under the `forOfD`
completion; the projector construction of `buildMapPaths` uses it so that
the (approved, universally quantified) content and invariant claims about
`buildMapPaths` stay statements about a function. It agrees with the real,
fallible `collectProjectedBounds` on every non-throwing execution
(`collectProjectedBounds_agrees`). -/
noncomputable def collectProjectedBoundsT (features : List (Feature ℝ)) : Bounds ℝ :=
  match ((collectPoints features).map mercatorProject).foldl foldPoint none with
  | some b => b
  | none =>
      { minX := (mercatorProject (-180, 85)).1
        minY := (mercatorProject (180, -85)).2
        maxX := (mercatorProject (180, -85)).1
        maxY := (mercatorProject (-180, 85)).2 }

lemma collectProjectedBounds_agrees (features : List (Feature ℝ)) (b : Bounds ℝ)
    (h : collectProjectedBounds features = some b) :
    collectProjectedBoundsT features = b := by
  rw [collectProjectedBounds] at h
  cases hp : collectPoints? features with
  | none => rw [hp] at h; cases h
  | some pts =>
    rw [hp, Option.map_some'] at h
    rw [collectProjectedBoundsT, collectPoints_agrees features pts hp]
    exact Option.some.inj h

/-- C4 counterexample: a `MultiPolygon` whose coordinates array holds the
non-array element `42`. No valid coordinate exists anywhere in the list
(its completed traversal visits zero points), yet instead of returning the
whole-world fallback the source throws a TypeError at
`for (const ring of polygon)` (App.tsx line 596) — the `none` result —
so the claim fails on an all-malformed input. -/
theorem collectProjectedBounds_claim_false :
    collectPoints
        [⟨some "XYZ", none, some ⟨"MultiPolygon", some (JVal.arr [JVal.num (42 : ℝ)])⟩⟩]
      = [] ∧
    collectProjectedBounds
        [⟨some "XYZ", none, some ⟨"MultiPolygon", some (JVal.arr [JVal.num (42 : ℝ)])⟩⟩]
      = none ∧
    collectProjectedBounds
        [⟨some "XYZ", none, some ⟨"MultiPolygon", some (JVal.arr [JVal.num (42 : ℝ)])⟩⟩]
      ≠ some { minX := -Real.pi
               minY := (mercatorProject (180, -85)).2
               maxX := Real.pi
               maxY := (mercatorProject (-180, 85)).2 } :=
  ⟨rfl, rfl, fun hcontra => Option.noConfusion hcontra⟩

/-- C4 (amended): on every feature list with no valid finite coordinate on
which the ring traversal does not throw — the traversal completes with zero
valid points (`collectPoints? = some []`), which covers the empty list and
all-malformed-but-iterable geometry — `collectProjectedBounds` returns
(rather than throwing) the Mercator projection of the whole-world clamped
range (lon ±180, lat ±85): a finite, nondegenerate box
(`minX = -π < π = maxX` and `minY < maxY`), never the `±Infinity`
sentinel. -/
theorem collectProjectedBounds_fallback (features : List (Feature ℝ))
    (h : collectPoints? features = some []) :
    collectProjectedBounds features =
      some { minX := -Real.pi
             minY := (mercatorProject (180, -85)).2
             maxX := Real.pi
             maxY := (mercatorProject (-180, 85)).2 } ∧
    (mercatorProject (180, -85)).2 < (mercatorProject (-180, 85)).2 ∧
    (-Real.pi : ℝ) < Real.pi := by
  have hx1 : (mercatorProject (-180, 85)).1 = -Real.pi := by
    simp only [mercatorProject]
    ring
  have hx2 : (mercatorProject (180, -85)).1 = Real.pi := by
    simp only [mercatorProject]
    ring
  refine ⟨?_, ?_, ?_⟩
  · rw [collectProjectedBounds, h, Option.map_some']
    simp only [List.map_nil, List.foldl_nil]
    rw [hx1, hx2]
  · exact mercatorProject_y_lt 180 (-180) (by norm_num) (by norm_num) (by norm_num)
  · linarith [Real.pi_pos]

/-- Witness for C4: every point malformed (wrong arity / non-numeric) but
every polygon iterable — the traversal completes with no valid point and
lands in the whole-world fallback. -/
theorem collectProjectedBounds_fallback_witness :
    collectPoints?
        [⟨some "THA", some "Thailand",
          some ⟨"Polygon", some (JVal.arr [JVal.arr [JVal.other, JVal.num (3 : ℝ),
            JVal.arr [JVal.num 1]]])⟩⟩] = some [] ∧
    collectProjectedBounds
        [⟨some "THA", some "Thailand",
          some ⟨"Polygon", some (JVal.arr [JVal.arr [JVal.other, JVal.num (3 : ℝ),
            JVal.arr [JVal.num 1]]])⟩⟩] =
      some { minX := -Real.pi
             minY := (mercatorProject (180, -85)).2
             maxX := Real.pi
             maxY := (mercatorProject (-180, 85)).2 } :=
  ⟨rfl,
   (collectProjectedBounds_fallback
      [⟨some "THA", some "Thailand",
        some ⟨"Polygon", some (JVal.arr [JVal.arr [JVal.other, JVal.num (3 : ℝ),
          JVal.arr [JVal.num 1]]])⟩⟩] rfl).1⟩

/-! ## Path builder (App.tsx lines 670-714) -/

/-- `fmt(num) = Number(num.toFixed(2))` (App.tsx lines 670-672): rounding to
two decimal places (the float-formatting detour is modelled as exact
rounding). -/
def fmt {α : Type} [LinearOrderedField α] [FloorRing α] (num : α) : α :=
  (round (num * 100) : ℤ) / 100

/-- One drawing command of the path string `d`: the string concatenation of
the source is modelled as the list of emitted commands, coordinates already
`fmt`-rounded. -/
inductive PathCmd (α : Type) where
  | move : α → α → PathCmd α
  | line : α → α → PathCmd α
  | close : PathCmd α
deriving DecidableEq, Repr

/-- The index/coordinate pairs produced by the indexed point loop of
`polygonToPathData` (App.tsx lines 687-699) started at index `i`: valid
points keep their original loop index, malformed points are skipped. -/
def ringPointsFrom {α : Type} (i : ℕ) : List (JVal α) → List (ℕ × (α × α))
  | [] => []
  | p :: rest =>
    match asCoord p with
    | some c => (i, c) :: ringPointsFrom (i + 1) rest
    | none => ringPointsFrom (i + 1) rest

/-- Commands and projected points contributed by one (array) ring: index 0
emits `M`, every other index emits `L` (App.tsx line 697); the unrounded
projected points feed the bounds fold; a `Z` closes the ring when at least
one point was emitted (App.tsx lines 701-703). -/
def ringData {α : Type} [LinearOrderedField α] [FloorRing α]
    (project : α × α → α × α) (ring : List (JVal α)) :
    List (PathCmd α) × List (α × α) :=
  let pts := ringPointsFrom 0 ring
  let cmds := pts.map fun ip =>
    if ip.1 = 0 then PathCmd.move (fmt (project ip.2).1) (fmt (project ip.2).2)
    else PathCmd.line (fmt (project ip.2).1) (fmt (project ip.2).2)
  (if cmds.isEmpty then [] else cmds ++ [PathCmd.close], pts.map fun ip => project ip.2)

/-- The rings accepted by the outer loop of `polygonToPathData`: arrays of
raw length ≥ 2 (App.tsx lines 681-684 — the length test is on the raw array,
before any validity filtering). -/
def qualifyingRings {α : Type} (polygon : List (JVal α)) : List (List (JVal α)) :=
  polygon.filterMap fun r =>
    match r with
    | JVal.arr ring => if ring.length < 2 then none else some ring
    | _ => none

/-- `polygonToPathData(polygon, project)` (App.tsx lines 674-714) over an
abstract projector: the emitted commands and the bounds of the projected
points, or `none` when no command was emitted (`!d`; equivalently the
`±Infinity` sentinel survived the fold, i.e. no valid point). -/
def polygonToPathData {α : Type} [LinearOrderedField α] [FloorRing α]
    (polygon : List (JVal α)) (project : α × α → α × α) :
    Option (List (PathCmd α) × Bounds α) :=
  let d := ((qualifyingRings polygon).map fun ring => (ringData project ring).1).flatten
  let pts := ((qualifyingRings polygon).map fun ring => (ringData project ring).2).flatten
  match pts.foldl foldPoint none with
  | none => none
  | some b => if d.isEmpty then none else some (d, b)

/-- `polygonToPathData` on a raw polygon value, as `buildMapPaths` calls it:
its `for (const ring of polygon)` loop (App.tsx line 681) throws
(`Except.error ()`) on a non-iterable polygon; otherwise the ring sequence
is processed as above (`Except.ok`, with the source's `null` as `none`). -/
def polygonToPathDataE {α : Type} [LinearOrderedField α] [FloorRing α]
    (polygon : JVal α) (project : α × α → α × α) :
    Except Unit (Option (List (PathCmd α) × Bounds α)) :=
  match forOf polygon with
  | none => Except.error ()
  | some rings => Except.ok (polygonToPathData rings project)

/-- The polygon result consumed by the total `buildMapPaths` model: the
`forOfD` completion collapses the TypeError — on which the source aborts the
whole build — into "nothing drawable" (`polygonToPathData` of an empty ring
sequence is `none`). On every non-throwing execution it equals the real
result (`polyDataOpt_agrees`). -/
def polyDataOpt {α : Type} [LinearOrderedField α] [FloorRing α]
    (polygon : JVal α) (project : α × α → α × α) :
    Option (List (PathCmd α) × Bounds α) :=
  polygonToPathData (forOfD polygon) project

lemma polyDataOpt_agrees {α : Type} [LinearOrderedField α] [FloorRing α]
    (polygon : JVal α) (project : α × α → α × α)
    (r : Option (List (PathCmd α) × Bounds α))
    (h : polygonToPathDataE polygon project = Except.ok r) :
    polyDataOpt polygon project = r := by
  rw [polygonToPathDataE] at h
  cases hf : forOf polygon with
  | none => rw [hf] at h; cases h
  | some rings =>
    rw [hf] at h
    rw [polyDataOpt, forOfD, hf, Option.getD_some]
    exact Except.ok.inj h

/-- The per-ring command shape asserted by C3 as stated: a move-to for the
first point, a line-to for each subsequent point, then a close, with
malformed points skipped. -/
def claimRingCmds {α : Type} [LinearOrderedField α] [FloorRing α]
    (project : α × α → α × α) (ring : List (JVal α)) : List (PathCmd α) :=
  match ring.filterMap asCoord with
  | [] => []
  | c :: cs =>
      PathCmd.move (fmt (project c).1) (fmt (project c).2) ::
        ((cs.map fun c2 => PathCmd.line (fmt (project c2).1) (fmt (project c2).2)) ++
          [PathCmd.close])

/-- Amended per-ring description: only the point at raw index 0 can emit a
move-to. If the ring's first entry is a valid coordinate the commands are
`M first, L …, Z`; if it is malformed, every valid point emits a line-to
(there is no move-to at all), still closed by `Z` when at least one valid
point exists. Malformed points never abort the ring. -/
def ringCmdsAmended {α : Type} [LinearOrderedField α] [FloorRing α]
    (project : α × α → α × α) (ring : List (JVal α)) : List (PathCmd α) :=
  match ring with
  | [] => []
  | p0 :: rest =>
    let tail := (rest.filterMap asCoord).map fun c =>
      PathCmd.line (fmt (project c).1) (fmt (project c).2)
    match asCoord p0 with
    | some c =>
        PathCmd.move (fmt (project c).1) (fmt (project c).2) :: (tail ++ [PathCmd.close])
    | none => if tail.isEmpty then [] else tail ++ [PathCmd.close]

section RingLemmas

variable {α : Type} [LinearOrderedField α] [FloorRing α]

lemma ringPointsFrom_pos_line (project : α × α → α × α) (i : ℕ) (hi : i ≠ 0)
    (ring : List (JVal α)) :
    ((ringPointsFrom i ring).map fun ip : ℕ × (α × α) =>
        if ip.1 = 0 then PathCmd.move (fmt (project ip.2).1) (fmt (project ip.2).2)
        else PathCmd.line (fmt (project ip.2).1) (fmt (project ip.2).2)) =
      (ring.filterMap asCoord).map fun c =>
        PathCmd.line (fmt (project c).1) (fmt (project c).2) := by
  induction ring generalizing i with
  | nil => rfl
  | cons p rest ih =>
    cases h : asCoord p with
    | none => simp [ringPointsFrom, h, ih (i + 1) (by omega)]
    | some c => simp [ringPointsFrom, h, hi, ih (i + 1) (by omega)]

/-- The code's per-ring commands coincide with the amended description. -/
lemma ringData_cmds_eq_amended (project : α × α → α × α) (ring : List (JVal α)) :
    (ringData project ring).1 = ringCmdsAmended project ring := by
  cases ring with
  | nil => rfl
  | cons p0 rest =>
    have hline := ringPointsFrom_pos_line project (0 + 1) (by omega) rest
    cases h : asCoord p0 with
    | some c =>
      simp only [ringData, ringCmdsAmended, ringPointsFrom, h, List.map_cons]
      rw [hline]
      simp
    | none =>
      simp only [ringData, ringCmdsAmended, ringPointsFrom, h]
      rw [hline]

lemma ringData_cmds_nil_iff (project : α × α → α × α) (ring : List (JVal α)) :
    (ringData project ring).1 = [] ↔ (ringData project ring).2 = [] := by
  cases hr : ringPointsFrom 0 ring with
  | nil => simp [ringData, hr]
  | cons a t => simp [ringData, hr]

lemma foldl_foldPoint_eq_none {β : Type} [LinearOrder β] (l : List (β × β))
    (acc : Option (Bounds β)) :
    l.foldl foldPoint acc = none ↔ acc = none ∧ l = [] := by
  induction l generalizing acc with
  | nil => simp
  | cons x xs ih =>
    rw [List.foldl_cons, ih]
    cases acc with
    | none => simp [foldPoint]
    | some b => simp [foldPoint]

lemma fmt_natCast (n : ℕ) : fmt ((n : α)) = n := by
  rw [fmt]
  have h : ((n : α)) * 100 = ((n * 100 : ℤ) : α) := by
    push_cast
    ring
  rw [h, round_intCast]
  push_cast
  rw [mul_div_assoc]
  norm_num

end RingLemmas

/-- C3 counterexample: a qualifying ring whose index-0 entry is malformed.
The code emits `L 3 4, L 5 6, Z` — no move-to at all, because only raw
index 0 can emit `M` and that entry was skipped — while the claim demands a
leading move-to for the first point. -/
theorem polygonToPathData_claim_false :
    (polygonToPathData (α := ℚ)
        [JVal.arr [JVal.other, JVal.arr [JVal.num 3, JVal.num 4],
          JVal.arr [JVal.num 5, JVal.num 6]]] id).map Prod.fst =
      some [PathCmd.line 3 4, PathCmd.line 5 6, PathCmd.close] ∧
    claimRingCmds (α := ℚ) id
        [JVal.other, JVal.arr [JVal.num 3, JVal.num 4], JVal.arr [JVal.num 5, JVal.num 6]] =
      [PathCmd.move 3 4, PathCmd.line 5 6, PathCmd.close] ∧
    (polygonToPathData (α := ℚ)
        [JVal.arr [JVal.other, JVal.arr [JVal.num 3, JVal.num 4],
          JVal.arr [JVal.num 5, JVal.num 6]]] id).map Prod.fst ≠
      some (claimRingCmds (α := ℚ) id
        [JVal.other, JVal.arr [JVal.num 3, JVal.num 4], JVal.arr [JVal.num 5, JVal.num 6]]) := by
  have f3 : fmt (3 : ℚ) = 3 := by simpa using fmt_natCast (α := ℚ) 3
  have f4 : fmt (4 : ℚ) = 4 := by simpa using fmt_natCast (α := ℚ) 4
  have f5 : fmt (5 : ℚ) = 5 := by simpa using fmt_natCast (α := ℚ) 5
  have f6 : fmt (6 : ℚ) = 6 := by simpa using fmt_natCast (α := ℚ) 6
  have h1 : (polygonToPathData (α := ℚ)
        [JVal.arr [JVal.other, JVal.arr [JVal.num 3, JVal.num 4],
          JVal.arr [JVal.num 5, JVal.num 6]]] id).map Prod.fst =
      some [PathCmd.line 3 4, PathCmd.line 5 6, PathCmd.close] := by
    simp [polygonToPathData, qualifyingRings, ringData, ringPointsFrom, asCoord, foldPoint,
      f3, f4, f5, f6]
  have h2 : claimRingCmds (α := ℚ) id
        [JVal.other, JVal.arr [JVal.num 3, JVal.num 4], JVal.arr [JVal.num 5, JVal.num 6]] =
      [PathCmd.move 3 4, PathCmd.line 5 6, PathCmd.close] := by
    simp [claimRingCmds, asCoord, f3, f4, f5, f6]
  refine ⟨h1, h2, ?_⟩
  rw [h1, h2]
  intro hcontra
  simp at hcontra

/-- C3 (amended): `polygonToPathData` processes exactly the array rings of
raw length ≥ 2; each contributes its valid points in order — a move-to only
when the valid point sits at raw index 0, a line-to otherwise — plus a
closing command when at least one valid point exists; malformed points are
skipped without aborting the ring; and the result is `none` exactly when no
command was emitted at all. -/
theorem polygonToPathData_cmds (polygon : List (JVal ℚ)) (project : ℚ × ℚ → ℚ × ℚ) :
    (polygonToPathData polygon project).map Prod.fst =
      (if ((qualifyingRings polygon).map fun ring =>
            ringCmdsAmended project ring).flatten = []
       then none
       else some ((qualifyingRings polygon).map fun ring =>
            ringCmdsAmended project ring).flatten) := by
  have hmap : ((qualifyingRings polygon).map fun ring => (ringData project ring).1) =
      ((qualifyingRings polygon).map fun ring => ringCmdsAmended project ring) :=
    List.map_congr_left fun ring _ => ringData_cmds_eq_amended project ring
  simp only [polygonToPathData, hmap]
  cases hfold : (((qualifyingRings polygon).map fun ring =>
      (ringData project ring).2).flatten).foldl foldPoint none with
  | none =>
    rw [foldl_foldPoint_eq_none] at hfold
    have hnil : ((qualifyingRings polygon).map fun ring =>
        ringCmdsAmended project ring).flatten = [] := by
      rw [List.flatten_eq_nil_iff]
      intro l hl
      obtain ⟨ring, hring, rfl⟩ := List.mem_map.mp hl
      rw [← ringData_cmds_eq_amended, ringData_cmds_nil_iff]
      exact List.flatten_eq_nil_iff.mp hfold.2 _ (List.mem_map_of_mem _ hring)
    simp [hnil]
  | some b =>
    by_cases hd : ((qualifyingRings polygon).map fun ring =>
        ringCmdsAmended project ring).flatten = []
    · simp [hd, List.isEmpty_iff]
    · simp [hd, List.isEmpty_iff]


/-! ## Map builder (App.tsx lines 628-769) -/

/-- Decimal character of a digit (used to model JS number-to-string). -/
def digitChar (d : ℕ) : Char := Char.ofNat (48 + d)

/-- Decimal rendering of a natural number, modelling the stringification of
the numeric indices in template literals. -/
def natChars (n : ℕ) : List Char :=
  if n = 0 then ['0'] else ((Nat.digits 10 n).reverse).map digitChar

/-- Decimal rendering as a `String`. -/
def natStr (n : ℕ) : String := String.mk (natChars n)

/-- The key template literal of App.tsx line 749. -/
def keyOf (iso3 : String) (featureIndex polygonIndex : ℕ) : String :=
  iso3 ++ "-" ++ natStr featureIndex ++ "-" ++ natStr polygonIndex

/-- `ISO3_TO_JA` (App.tsx lines 130-141): the fixed ten-entry iso3 → display
name table of member states. -/
def ISO3_TO_JA : List (String × String) :=
  [("BRN", "ブルネイ"), ("MMR", "ミャンマー"), ("KHM", "カンボジア"),
   ("IDN", "インドネシア"), ("LAO", "ラオス"), ("MYS", "マレーシア"),
   ("PHL", "フィリピン"), ("SGP", "シンガポール"), ("THA", "タイ"),
   ("VNM", "ベトナム")]

/-- `ISO3_TO_JA.get(iso3)` (`undefined` ≡ `none`). -/
def iso3Lookup (iso3 : String) : Option String :=
  (ISO3_TO_JA.find? fun p => p.1 == iso3).map Prod.snd

/-- The `MapPath` record (App.tsx lines 39-46); the path string `d` is the
emitted command list. -/
structure MapPath (α : Type) where
  key : String
  d : List (PathCmd α)
  iso3 : String
  countryName : Option String
  isAsean : Bool
  bounds : Bounds α

/-- `feature.properties?.iso3 ?? F-<featureIndex>` (App.tsx line 737). -/
def featureIso3 {α : Type} (fi : ℕ) (feature : Feature α) : String :=
  feature.iso3.getD ("F-" ++ natStr fi)

/-- Body of the inner `polygons.forEach` of `buildMapPaths` (App.tsx lines
742-765): skip polygons whose path build failed, append the `MapPath`, and
merge the polygon's bounds into the country map entry for member features.
The `Map` of the source is modelled as a lookup function, and the raw
polygon goes through `polyDataOpt`: a non-iterable polygon, on which the
source would abort the whole build with a TypeError, contributes nothing
here (see `forOfD`). -/
def polyStep {α : Type} [LinearOrderedField α] [FloorRing α]
    (project : α × α → α × α) (iso3 : String) (countryName : Option String) (fi : ℕ)
    (acc : List (MapPath α) × (String → Option (Bounds α))) (ppoly : ℕ × JVal α) :
    List (MapPath α) × (String → Option (Bounds α)) :=
  match polyDataOpt ppoly.2 project with
  | none => acc
  | some pd =>
    let path : MapPath α :=
      { key := keyOf iso3 fi ppoly.1, d := pd.1, iso3 := iso3,
        countryName := countryName, isAsean := countryName.isSome, bounds := pd.2 }
    (acc.1 ++ [path],
     match countryName with
     | none => acc.2
     | some nm => fun n =>
        if n = nm then
          some (match acc.2 nm with
                | some cur => mergeBounds cur pd.2
                | none => pd.2)
        else acc.2 n)

/-- Body of the outer `features.forEach` of `buildMapPaths` (App.tsx lines
736-766). -/
def featStep {α : Type} [LinearOrderedField α] [FloorRing α]
    (project : α × α → α × α)
    (acc : List (MapPath α) × (String → Option (Bounds α))) (pf : ℕ × Feature α) :
    List (MapPath α) × (String → Option (Bounds α)) :=
  let iso3 := featureIso3 pf.1 pf.2
  let countryName := iso3Lookup iso3
  ((geometryToPolygons pf.2.geometry).enum).foldl (polyStep project iso3 countryName pf.1) acc

/-- `buildMapPaths` over an abstract shared projector (App.tsx lines
733-768): the `paths` accumulation and `countryBounds` map. -/
def buildMapPathsWith {α : Type} [LinearOrderedField α] [FloorRing α]
    (features : List (Feature α)) (project : α × α → α × α) :
    List (MapPath α) × (String → Option (Bounds α)) :=
  (features.enum).foldl (featStep project) ([], fun _ => none)

/-- `expandBounds(bounds, factor)` (App.tsx lines 628-642). The JS guard
`dx || 1` (which falls back on a zero width) is modelled as an equality
test. -/
noncomputable def expandBounds (bounds : Bounds ℝ) (factor : ℝ) : Bounds ℝ :=
  let dx := if bounds.maxX - bounds.minX = 0 then 1 else bounds.maxX - bounds.minX
  let dy := if bounds.maxY - bounds.minY = 0 then 1 else bounds.maxY - bounds.minY
  let cx := (bounds.minX + bounds.maxX) / 2
  let cy := (bounds.minY + bounds.maxY) / 2
  let halfW := dx * factor / 2
  let halfH := dy * factor / 2
  { minX := cx - halfW, minY := cy - halfH, maxX := cx + halfW, maxY := cy + halfH }

/-- `createProjector(features, focusFeatures, focusPadding)` (App.tsx lines
644-668): fit the (possibly expanded) focus bounds onto the padded canvas,
preserving aspect, centred; the empty feature list yields the identity.
Uses the total `collectProjectedBoundsT` (the real `collectProjectedBounds`
would propagate the TypeError through the project build; the two agree on
every non-throwing execution). -/
noncomputable def createProjector (features focusFeatures : List (Feature ℝ))
    (focusPadding : ℝ) : ℝ × ℝ → ℝ × ℝ :=
  let baseBounds := collectProjectedBoundsT focusFeatures
  let bounds := if focusPadding > 1 then expandBounds baseBounds focusPadding else baseBounds
  let dx := if bounds.maxX - bounds.minX = 0 then 1 else bounds.maxX - bounds.minX
  let dy := if bounds.maxY - bounds.minY = 0 then 1 else bounds.maxY - bounds.minY
  let innerWidth := MAP_WIDTH - MAP_PADDING * 2
  let innerHeight := MAP_HEIGHT - MAP_PADDING * 2
  let scale := min (innerWidth / dx) (innerHeight / dy)
  let usedWidth := dx * scale
  let usedHeight := dy * scale
  let offsetX := (MAP_WIDTH - usedWidth) / 2
  let offsetY := (MAP_HEIGHT - usedHeight) / 2
  if features.isEmpty then id
  else fun coord =>
    let xy := mercatorProject coord
    ((xy.1 - bounds.minX) * scale + offsetX, (bounds.maxY - xy.2) * scale + offsetY)

/-- The member filter of `buildMapPaths` (App.tsx lines 726-729):
`Boolean(iso3 && ISO3_TO_JA.has(iso3))`. -/
def isAseanFeature {α : Type} (f : Feature α) : Bool :=
  match f.iso3 with
  | none => false
  | some i => (iso3Lookup i).isSome

/-- The shared projector chosen by `buildMapPaths` (App.tsx lines 726-732):
members are the focus set when any exist, else all features. -/
noncomputable def projectorOf (features : List (Feature ℝ)) : ℝ × ℝ → ℝ × ℝ :=
  let aseanFeatures := features.filter isAseanFeature
  let focusFeatures := if aseanFeatures.isEmpty then features else aseanFeatures
  createProjector features focusFeatures ASEAN_FOCUS_PADDING

/-- `buildMapPaths(features)` (App.tsx lines 725-769). -/
noncomputable def buildMapPaths (features : List (Feature ℝ)) :
    List (MapPath ℝ) × (String → Option (Bounds ℝ)) :=
  buildMapPathsWith features (projectorOf features)


section KeyLemmas

lemma digitChar_injOn : ∀ a < 10, ∀ b < 10, digitChar a = digitChar b → a = b := by decide

lemma digitChar_ne_dash : ∀ a < 10, digitChar a ≠ '-' := by decide

lemma charDigit_digitChar : ∀ d < 10, (digitChar d).toNat - 48 = d := by decide

lemma natChars_ne_dash (n : ℕ) : '-' ∉ natChars n := by
  unfold natChars
  split
  · simp
  · intro hmem
    rw [List.mem_map] at hmem
    obtain ⟨d, hd, heq⟩ := hmem
    rw [List.mem_reverse] at hd
    exact digitChar_ne_dash d (Nat.digits_lt_base (by norm_num) hd) heq

lemma map_digitChar_inj {l1 l2 : List ℕ} (h1 : ∀ d ∈ l1, d < 10) (h2 : ∀ d ∈ l2, d < 10)
    (h : l1.map digitChar = l2.map digitChar) : l1 = l2 := by
  have hh := congrArg (List.map fun c : Char => c.toNat - 48) h
  rw [List.map_map, List.map_map] at hh
  simp only [Function.comp_def] at hh
  have e1 : l1.map (fun d => (digitChar d).toNat - 48) = l1.map id :=
    List.map_congr_left fun d hd => charDigit_digitChar d (h1 d hd)
  have e2 : l2.map (fun d => (digitChar d).toNat - 48) = l2.map id :=
    List.map_congr_left fun d hd => charDigit_digitChar d (h2 d hd)
  rw [List.map_id] at e1 e2
  rw [e1, e2] at hh
  exact hh

lemma digits_bounded (n : ℕ) : ∀ d ∈ Nat.digits 10 n, d < 10 :=
  fun _ hd => Nat.digits_lt_base (by norm_num) hd

lemma natChars_inj : Function.Injective natChars := by
  intro m n h
  unfold natChars at h
  by_cases hm : m = 0 <;> by_cases hn : n = 0
  · rw [hm, hn]
  · exfalso
    rw [if_pos hm, if_neg hn] at h
    have h0 : ([0] : List ℕ).map digitChar = ((Nat.digits 10 n).reverse).map digitChar := h
    have : ([0] : List ℕ) = (Nat.digits 10 n).reverse := by
      refine map_digitChar_inj (by simp) ?_ h0
      intro d hd
      exact digits_bounded n d (List.mem_reverse.mp hd)
    have hdig : Nat.digits 10 n = [0] := by
      have := congrArg List.reverse this
      simpa using this.symm
    have := Nat.ofDigits_digits 10 n
    rw [hdig] at this
    simp [Nat.ofDigits] at this
    exact hn this.symm
  · exfalso
    rw [if_neg hm, if_pos hn] at h
    have h0 : ((Nat.digits 10 m).reverse).map digitChar = ([0] : List ℕ).map digitChar := h
    have : (Nat.digits 10 m).reverse = ([0] : List ℕ) := by
      refine map_digitChar_inj ?_ (by simp) h0
      intro d hd
      exact digits_bounded m d (List.mem_reverse.mp hd)
    have hdig : Nat.digits 10 m = [0] := by
      have := congrArg List.reverse this
      simpa using this
    have := Nat.ofDigits_digits 10 m
    rw [hdig] at this
    simp [Nat.ofDigits] at this
    exact hm this.symm
  · rw [if_neg hm, if_neg hn] at h
    have hrev : (Nat.digits 10 m).reverse = (Nat.digits 10 n).reverse := by
      refine map_digitChar_inj ?_ ?_ h
      · intro d hd
        exact digits_bounded m d (List.mem_reverse.mp hd)
      · intro d hd
        exact digits_bounded n d (List.mem_reverse.mp hd)
    have hdig : Nat.digits 10 m = Nat.digits 10 n := List.reverse_injective hrev
    have := congrArg (Nat.ofDigits 10) hdig
    rwa [Nat.ofDigits_digits, Nat.ofDigits_digits] at this

lemma append_dash_inj : ∀ (l1 : List Char) {l2 r1 r2 : List Char}, '-' ∉ r1 → '-' ∉ r2 →
    l1 ++ '-' :: r1 = l2 ++ '-' :: r2 → l1 = l2 ∧ r1 = r2 := by
  intro l1
  induction l1 with
  | nil =>
    intro l2 r1 r2 hr1 hr2 h
    cases l2 with
    | nil => simpa using h
    | cons c t =>
      exfalso
      rw [List.nil_append, List.cons_append, List.cons.injEq] at h
      exact hr1 (h.2 ▸ List.mem_append_right t (List.mem_cons_self _ _))
  | cons c t ih =>
    intro l2 r1 r2 hr1 hr2 h
    cases l2 with
    | nil =>
      exfalso
      rw [List.nil_append, List.cons_append, List.cons.injEq] at h
      exact hr2 (h.2 ▸ List.mem_append_right t (List.mem_cons_self _ _))
    | cons d u =>
      rw [List.cons_append, List.cons_append, List.cons.injEq] at h
      obtain ⟨h1, h2⟩ := ih hr1 hr2 h.2
      exact ⟨by rw [h.1, h1], h2⟩

lemma keyOf_data (a : String) (f p : ℕ) :
    (keyOf a f p).data = (a.data ++ '-' :: natChars f) ++ '-' :: natChars p := by
  show (a.data ++ ['-'] ++ natChars f ++ ['-'] ++ natChars p) =
    (a.data ++ '-' :: natChars f) ++ '-' :: natChars p
  simp

lemma keyOf_inj {a b : String} {f p g q : ℕ} (h : keyOf a f p = keyOf b g q) :
    a = b ∧ f = g ∧ p = q := by
  have hd := congrArg String.data h
  rw [keyOf_data, keyOf_data] at hd
  obtain ⟨h12, hpq⟩ := append_dash_inj _ (natChars_ne_dash p) (natChars_ne_dash q) hd
  obtain ⟨hab, hfg⟩ := append_dash_inj _ (natChars_ne_dash f) (natChars_ne_dash g) h12
  refine ⟨?_, natChars_inj hfg, natChars_inj hpq⟩
  cases a
  cases b
  exact congrArg String.mk hab

end KeyLemmas


section BuildLemmas

variable {α : Type} [LinearOrderedField α] [FloorRing α]

/-- One feature's contribution to the `paths` list: one `MapPath` per
successfully built polygon, keyed by iso3 / feature index / polygon index. -/
def featPaths (project : α × α → α × α) (fi : ℕ) (feature : Feature α) :
    List (MapPath α) :=
  ((geometryToPolygons feature.geometry).enum).filterMap fun ppoly =>
    (polyDataOpt ppoly.2 project).map fun pd =>
      { key := keyOf (featureIso3 fi feature) fi ppoly.1, d := pd.1,
        iso3 := featureIso3 fi feature,
        countryName := iso3Lookup (featureIso3 fi feature),
        isAsean := (iso3Lookup (featureIso3 fi feature)).isSome,
        bounds := pd.2 }

lemma polyFold_paths (project : α × α → α × α) (iso3 : String) (cn : Option String)
    (fi : ℕ) (ps : List (ℕ × JVal α))
    (acc : List (MapPath α) × (String → Option (Bounds α))) :
    (ps.foldl (polyStep project iso3 cn fi) acc).1 =
      acc.1 ++ ps.filterMap fun ppoly =>
        (polyDataOpt ppoly.2 project).map fun pd =>
          { key := keyOf iso3 fi ppoly.1, d := pd.1, iso3 := iso3,
            countryName := cn, isAsean := cn.isSome, bounds := pd.2 } := by
  induction ps generalizing acc with
  | nil => simp
  | cons pp ps ih =>
    rw [List.foldl_cons, ih]
    cases h : polyDataOpt pp.2 project with
    | none => simp [polyStep, h]
    | some pd => simp [polyStep, h]

lemma featFold_paths (project : α × α → α × α) (l : List (ℕ × Feature α))
    (acc : List (MapPath α) × (String → Option (Bounds α))) :
    (l.foldl (featStep project) acc).1 =
      acc.1 ++ l.flatMap fun pf => featPaths project pf.1 pf.2 := by
  induction l generalizing acc with
  | nil => simp
  | cons pf l ih =>
    rw [List.foldl_cons, ih]
    have hstep : (featStep project acc pf).1 = acc.1 ++ featPaths project pf.1 pf.2 := by
      simp only [featStep]
      rw [polyFold_paths]
      rfl
    rw [hstep, List.flatMap_cons, List.append_assoc]

lemma buildMapPathsWith_paths (features : List (Feature α)) (project : α × α → α × α) :
    (buildMapPathsWith features project).1 =
      (features.enum).flatMap fun pf => featPaths project pf.1 pf.2 := by
  unfold buildMapPathsWith
  rw [featFold_paths]
  rfl

/-- Fold a list of bounds into an optional accumulator with `mergeBounds`,
exactly as `countryBounds.set` does per polygon. -/
def foldBoundsOpt {β : Type} [LinearOrder β]
    (o : Option (Bounds β)) (bs : List (Bounds β)) : Option (Bounds β) :=
  bs.foldl (fun acc b => some (match acc with
    | some cur => mergeBounds cur b
    | none => b)) o

lemma foldBoundsOpt_append {β : Type} [LinearOrder β] (o : Option (Bounds β))
    (l1 l2 : List (Bounds β)) :
    foldBoundsOpt (foldBoundsOpt o l1) l2 = foldBoundsOpt o (l1 ++ l2) := by
  simp [foldBoundsOpt, List.foldl_append]

lemma polyFold_bounds (project : α × α → α × α) (iso3 : String) (cn : Option String)
    (fi : ℕ) (ps : List (ℕ × JVal α))
    (acc : List (MapPath α) × (String → Option (Bounds α))) (name : String) :
    (ps.foldl (polyStep project iso3 cn fi) acc).2 name =
      if cn = some name then
        foldBoundsOpt (acc.2 name)
          (ps.filterMap fun pp => (polyDataOpt pp.2 project).map Prod.snd)
      else acc.2 name := by
  induction ps generalizing acc with
  | nil =>
    split
    · rfl
    · rfl
  | cons pp ps ih =>
    rw [List.foldl_cons, ih]
    cases h : polyDataOpt pp.2 project with
    | none => simp [polyStep, h]
    | some pd =>
      cases cn with
      | none => simp [polyStep, h]
      | some nm =>
        by_cases hn : nm = name
        · subst hn
          have hstep : (polyStep project iso3 (some nm) fi acc pp).2 nm =
              some (match acc.2 nm with
                | some cur => mergeBounds cur pd.2
                | none => pd.2) := by
            simp [polyStep, h]
          rw [if_pos rfl, if_pos rfl, List.filterMap_cons, h, hstep]
          rfl
        · simp [polyStep, h, hn, Ne.symm hn]

lemma featStep_bounds (project : α × α → α × α) (pf : ℕ × Feature α)
    (acc : List (MapPath α) × (String → Option (Bounds α))) (name : String) :
    (featStep project acc pf).2 name =
      if iso3Lookup (featureIso3 pf.1 pf.2) = some name then
        foldBoundsOpt (acc.2 name)
          ((geometryToPolygons pf.2.geometry).enum.filterMap fun pp =>
            (polyDataOpt pp.2 project).map Prod.snd)
      else acc.2 name := by
  simp only [featStep]
  rw [polyFold_bounds]

lemma featFold_bounds (project : α × α → α × α) (l : List (ℕ × Feature α))
    (acc : List (MapPath α) × (String → Option (Bounds α))) (name : String) :
    (l.foldl (featStep project) acc).2 name =
      foldBoundsOpt (acc.2 name) (l.flatMap fun pf =>
        if iso3Lookup (featureIso3 pf.1 pf.2) = some name then
          (geometryToPolygons pf.2.geometry).enum.filterMap fun pp =>
            (polyDataOpt pp.2 project).map Prod.snd
        else []) := by
  induction l generalizing acc with
  | nil => rfl
  | cons pf l ih =>
    rw [List.foldl_cons, ih, featStep_bounds, List.flatMap_cons, ← foldBoundsOpt_append]
    by_cases hc : iso3Lookup (featureIso3 pf.1 pf.2) = some name
    · rw [if_pos hc, if_pos hc]
    · rw [if_neg hc, if_neg hc]
      rfl

/-- The resolved member country of a feature, independent of its index: the
`F-<index>` fallback iso3 never names a member. -/
def featureCountry (f : Feature α) : Option String :=
  match f.iso3 with
  | some i => iso3Lookup i
  | none => none

/-- Spec-side description for C5: the bounds of the successfully built
polygons of the features bearing the country's iso3, in source order. -/
def countryPolyBounds (features : List (Feature α)) (project : α × α → α × α)
    (name : String) : List (Bounds α) :=
  features.flatMap fun f =>
    if featureCountry f = some name then
      (geometryToPolygons f.geometry).filterMap fun poly =>
        (polyDataOpt poly project).map Prod.snd
    else []

lemma iso3Lookup_F_append (s : String) : iso3Lookup ("F-" ++ s) = none := by
  have hne : ∀ k ∈ ISO3_TO_JA, ¬((fun p : String × String => p.1 == "F-" ++ s) k = true) := by
    intro k hk
    simp only [beq_iff_eq]
    intro he
    have hd : k.1.data = 'F' :: '-' :: s.data := congrArg String.data he
    fin_cases hk <;> simp at hd
  rw [iso3Lookup, List.find?_eq_none.mpr hne]
  rfl

lemma enumFrom_filterMap_snd {β γ : Type} (g : β → Option γ) (i : ℕ) (ps : List β) :
    (List.enumFrom i ps).filterMap (fun pp => g pp.2) = ps.filterMap g := by
  induction ps generalizing i with
  | nil => rfl
  | cons p ps ih =>
    rw [List.enumFrom_cons, List.filterMap_cons, List.filterMap_cons]
    cases g p with
    | none => exact ih (i + 1)
    | some c => rw [ih (i + 1)]

lemma enumFrom_flatMap_country (project : α × α → α × α) (i : ℕ)
    (features : List (Feature α)) (name : String) :
    ((List.enumFrom i features).flatMap fun pf =>
      if iso3Lookup (featureIso3 pf.1 pf.2) = some name then
        (geometryToPolygons pf.2.geometry).enum.filterMap fun pp =>
          (polyDataOpt pp.2 project).map Prod.snd
      else []) = countryPolyBounds features project name := by
  induction features generalizing i with
  | nil => rfl
  | cons f fs ih =>
    rw [List.enumFrom_cons, List.flatMap_cons, countryPolyBounds, List.flatMap_cons]
    have hcond : iso3Lookup (featureIso3 i f) = featureCountry f := by
      cases hf : f.iso3 with
      | some s => simp [featureIso3, featureCountry, hf]
      | none => simp [featureIso3, featureCountry, hf, iso3Lookup_F_append]
    rw [hcond]
    have hinner : ((geometryToPolygons f.geometry).enum.filterMap fun pp =>
        (polyDataOpt pp.2 project).map Prod.snd) =
        (geometryToPolygons f.geometry).filterMap fun poly =>
          (polyDataOpt poly project).map Prod.snd := by
      rw [List.enum]
      exact enumFrom_filterMap_snd
        (fun poly => (polyDataOpt poly project).map Prod.snd) 0 _
    rw [hinner, ih (i + 1)]
    rfl

omit [LinearOrderedField α] [FloorRing α] in
lemma featureCountry_mem_values {f : Feature α} {n : String}
    (h : featureCountry f = some n) : n ∈ ISO3_TO_JA.map Prod.snd := by
  rw [featureCountry] at h
  cases hf : f.iso3 with
  | none => rw [hf] at h; cases h
  | some i =>
    rw [hf] at h
    simp only [iso3Lookup] at h
    cases hfind : ISO3_TO_JA.find? fun p => p.1 == i with
    | none => rw [hfind] at h; cases h
    | some pr =>
      rw [hfind] at h
      have hmem := List.mem_of_find?_eq_some hfind
      have : pr.2 = n := by simpa using h
      rw [← this]
      exact List.mem_map_of_mem Prod.snd hmem

end BuildLemmas

/-- C5: the `countryBounds` map built by `buildMapPaths` sends a name to the
`mergeBounds` fold of the bounds of all successfully built polygons of the
features bearing that country's iso3 (`none` when there are none), and holds
no entry for any name outside the member table. -/
theorem buildMapPaths_countryBounds (features : List (Feature ℝ)) (name : String) :
    (buildMapPaths features).2 name =
      foldBoundsOpt none (countryPolyBounds features (projectorOf features) name) ∧
    (name ∉ ISO3_TO_JA.map Prod.snd → (buildMapPaths features).2 name = none) := by
  have hmain : (buildMapPaths features).2 name =
      foldBoundsOpt none (countryPolyBounds features (projectorOf features) name) := by
    rw [buildMapPaths, buildMapPathsWith, featFold_bounds]
    rw [List.enum]
    rw [enumFrom_flatMap_country]
  refine ⟨hmain, fun hnot => ?_⟩
  rw [hmain]
  have hempty : countryPolyBounds features (projectorOf features) name = [] := by
    rw [countryPolyBounds, List.flatMap_eq_nil_iff]
    intro f hf
    by_cases hc : featureCountry f = some name
    · exact absurd (featureCountry_mem_values hc) hnot
    · rw [if_neg hc]
  rw [hempty]
  rfl

/-- Witness for C5 at a name outside the member table. -/
theorem buildMapPaths_countryBounds_witness :
    "ABC" ∉ ISO3_TO_JA.map Prod.snd ∧ (buildMapPaths []).2 "ABC" = none :=
  ⟨by decide, (buildMapPaths_countryBounds [] "ABC").2 (by decide)⟩



section KeyNodup

variable {α : Type} [LinearOrderedField α] [FloorRing α]

lemma featPaths_keys (project : α × α → α × α) (fi : ℕ) (feature : Feature α) :
    (featPaths project fi feature).map MapPath.key =
      (List.enumFrom 0 (geometryToPolygons feature.geometry)).filterMap fun pp =>
        (polyDataOpt pp.2 project).map fun _ =>
          keyOf (featureIso3 fi feature) fi pp.1 := by
  rw [featPaths, List.map_filterMap, List.enum]
  congr 1
  funext pp
  cases polyDataOpt pp.2 project with
  | none => rfl
  | some pd => rfl

lemma mem_inner_keys (project : α × α → α × α) (iso3 : String) (fi : ℕ) :
    ∀ (i : ℕ) (ps : List (JVal α)) (k : String),
      k ∈ (List.enumFrom i ps).filterMap (fun pp =>
        (polyDataOpt pp.2 project).map fun _ => keyOf iso3 fi pp.1) →
      ∃ j, i ≤ j ∧ k = keyOf iso3 fi j := by
  intro i ps
  induction ps generalizing i with
  | nil => intro k hk; cases hk
  | cons p ps ih =>
    intro k hk
    rw [List.enumFrom_cons, List.filterMap_cons] at hk
    cases hp : polyDataOpt p project with
    | none =>
      rw [hp] at hk
      obtain ⟨j, hj, hkj⟩ := ih (i + 1) k hk
      exact ⟨j, by omega, hkj⟩
    | some pd =>
      rw [hp] at hk
      rcases List.mem_cons.mp hk with h | h
      · exact ⟨i, le_refl i, h⟩
      · obtain ⟨j, hj, hkj⟩ := ih (i + 1) k h
        exact ⟨j, by omega, hkj⟩

lemma inner_keys_nodup (project : α × α → α × α) (iso3 : String) (fi : ℕ)
    (i : ℕ) (ps : List (JVal α)) :
    ((List.enumFrom i ps).filterMap (fun pp =>
      (polyDataOpt pp.2 project).map fun _ => keyOf iso3 fi pp.1)).Nodup := by
  induction ps generalizing i with
  | nil => exact List.nodup_nil
  | cons p ps ih =>
    rw [List.enumFrom_cons, List.filterMap_cons]
    cases hp : polyDataOpt p project with
    | none => exact ih (i + 1)
    | some pd =>
      refine List.Nodup.cons ?_ (ih (i + 1))
      intro hmem
      obtain ⟨j, hj, hkj⟩ := mem_inner_keys project iso3 fi (i + 1) ps _ hmem
      obtain ⟨-, -, hij⟩ := keyOf_inj hkj
      omega

lemma mem_outer_keys (project : α × α → α × α) :
    ∀ (i : ℕ) (fs : List (Feature α)) (k : String),
      k ∈ ((List.enumFrom i fs).flatMap fun pf =>
        (featPaths project pf.1 pf.2).map MapPath.key) →
      ∃ j, i ≤ j ∧ ∃ iso pi, k = keyOf iso j pi := by
  intro i fs
  induction fs generalizing i with
  | nil => intro k hk; cases hk
  | cons f fs ih =>
    intro k hk
    rw [List.enumFrom_cons, List.flatMap_cons, List.mem_append] at hk
    rcases hk with h | h
    · rw [featPaths_keys] at h
      obtain ⟨j, _, hkj⟩ := mem_inner_keys project (featureIso3 i f) i 0 _ k h
      exact ⟨i, le_refl i, featureIso3 i f, j, hkj⟩
    · obtain ⟨j, hj, hrest⟩ := ih (i + 1) k h
      exact ⟨j, by omega, hrest⟩

lemma outer_keys_nodup (project : α × α → α × α) (i : ℕ) (fs : List (Feature α)) :
    ((List.enumFrom i fs).flatMap fun pf =>
      (featPaths project pf.1 pf.2).map MapPath.key).Nodup := by
  induction fs generalizing i with
  | nil => exact List.nodup_nil
  | cons f fs ih =>
    rw [List.enumFrom_cons, List.flatMap_cons]
    refine List.Nodup.append ?_ (ih (i + 1)) ?_
    · rw [featPaths_keys]
      exact inner_keys_nodup project (featureIso3 i f) i 0 _
    · intro k hk1 hk2
      rw [featPaths_keys] at hk1
      obtain ⟨j1, -, hkj1⟩ := mem_inner_keys project (featureIso3 i f) i 0 _ k hk1
      obtain ⟨j2, hj2, iso, pi, hkj2⟩ := mem_outer_keys project (i + 1) fs k hk2
      rw [hkj1] at hkj2
      obtain ⟨-, hij, -⟩ := keyOf_inj hkj2
      omega

end KeyNodup

/-- C10: the `key` fields of the paths produced by `buildMapPaths` are
pairwise distinct, and every key is the iso3 (or `F-<index>` placeholder)
joined with the feature index and the polygon index. -/
theorem buildMapPaths_keys_distinct (features : List (Feature ℝ)) :
    ((buildMapPaths features).1.map MapPath.key).Nodup ∧
    ∀ path ∈ (buildMapPaths features).1, ∃ fi pi, path.key = keyOf path.iso3 fi pi := by
  constructor
  · rw [buildMapPaths, buildMapPathsWith_paths, List.map_flatMap, List.enum]
    exact outer_keys_nodup (projectorOf features) 0 features
  · intro path hp
    rw [buildMapPaths, buildMapPathsWith_paths, List.mem_flatMap] at hp
    obtain ⟨pf, _, hmem⟩ := hp
    rw [featPaths, List.mem_filterMap] at hmem
    obtain ⟨pp, _, hsome⟩ := hmem
    cases hpd : polyDataOpt pp.2 (projectorOf features) with
    | none => rw [hpd] at hsome; cases hsome
    | some pd =>
      rw [hpd] at hsome
      have := Option.some.inj hsome
      refine ⟨pf.1, pp.1, ?_⟩
      rw [← this]


/-! ## Viewport controller and label choreographer (App.tsx lines 833-1044)

The component's mutable refs/state and the asynchronous continuations of
`execute` are defunctionalised into an explicit state record; promise
resolutions become queued microtasks, `requestAnimationFrame` / `setTimeout`
callbacks become explicit events, and `performance.now()` values are passed
in as parameters. -/

/-- Label animation phase (App.tsx line 48). -/
inductive LabelPhase where
  | entering
  | visible
  | exiting
deriving DecidableEq, Repr

/-- `ActiveLabel` (App.tsx lines 50-53). -/
structure ActiveLabel where
  countryName : String
  phase : LabelPhase
deriving DecidableEq, Repr

/-- Defunctionalised continuations of the async `execute` (App.tsx lines
1012-1041): `afterHide` resumes after `await hideEditorialLabel(runId)`,
`afterZoom` after the country zoom (its only remaining work is
`showEditorialLabel` under the run-id guard), and `finished` marks an
`execute` with no work left (the "all" branch and the missing-bounds branch
end right after their animation). -/
inductive Cont where
  | afterHide (countryName : String) (runId : ℕ)
  | afterZoom (countryName : String) (runId : ℕ)
  | finished
deriving DecidableEq, Repr

/-- An in-flight animation: the `step` closure of `animateViewBox` (App.tsx
lines 933-969) with its captured start box, target, start time, duration and
its own promise resolution. -/
structure AnimRun where
  fromBox : ViewBox ℚ
  target : ViewBox ℚ
  startAt : ℚ
  durationMs : ℚ
  resolve : Cont
deriving DecidableEq, Repr

/-- The component state: committed viewBox (`viewBoxRef` and the rendered
state, which the source keeps in lock-step), the refs of App.tsx lines
841-846, the pending `showEditorialLabel` flip, and the microtask queue of
resolved promises. -/
structure Sys where
  runId : ℕ
  activeLabel : Option ActiveLabel
  viewBox : ViewBox ℚ
  anim : Option AnimRun
  animResolve : Option Cont
  exitTimer : Option (ℕ × Cont)
  pendingFlip : Option (String × ℕ)
  micro : List Cont
deriving DecidableEq, Repr

/-- `boxesAlmostEqual` (App.tsx lines 802-810): every field within 0.01. -/
def boxesAlmostEqual (a b : ViewBox ℚ) : Bool :=
  decide (|a.x - b.x| < 1 / 100) && decide (|a.y - b.y| < 1 / 100) &&
    decide (|a.width - b.width| < 1 / 100) && decide (|a.height - b.height| < 1 / 100)

/-- `easeOutCubic` (App.tsx line 935). -/
def easeOutCubic (t : ℚ) : ℚ := 1 - (1 - t) ^ 3

/-- The synchronous body of `animateViewBox(target, durationMs)` (App.tsx
lines 913-971): `k` is the continuation awaiting this call's promise and
`startAt` the `performance.now()` reading. The fast path commits the target
and resolves at once — touching neither the scheduled animation nor the
pending resolve ref; otherwise any scheduled step is cancelled, a pending
resolve is invoked (its continuation joins the microtask queue), and a fresh
run starts from the current viewBox. -/
def animateViewBox (s : Sys) (target : ViewBox ℚ) (durationMs : ℚ) (startAt : ℚ)
    (k : Cont) : Sys :=
  if boxesAlmostEqual s.viewBox target then
    { s with viewBox := target, micro := s.micro ++ [k] }
  else
    let s1 :=
      match s.animResolve with
      | some k0 => { s with anim := none, animResolve := none, micro := s.micro ++ [k0] }
      | none => { s with anim := none }
    { s1 with
      animResolve := some k
      anim := some { fromBox := s1.viewBox, target := target, startAt := startAt,
                     durationMs := durationMs, resolve := k } }

/-- One `requestAnimationFrame` tick of the `step` closure (App.tsx lines
937-967) at time `now`: interpolate with the eased fraction and stay
scheduled, or on `t = 1` commit exactly the target, clear the in-flight
state and resolve (through the resolve ref when set, else the closure's
own resolution). -/
def stepAnim (s : Sys) (now : ℚ) : Sys :=
  match s.anim with
  | none => s
  | some a =>
    let t := min 1 ((now - a.startAt) / a.durationMs)
    let e := easeOutCubic t
    let next : ViewBox ℚ :=
      { x := a.fromBox.x + (a.target.x - a.fromBox.x) * e
        y := a.fromBox.y + (a.target.y - a.fromBox.y) * e
        width := a.fromBox.width + (a.target.width - a.fromBox.width) * e
        height := a.fromBox.height + (a.target.height - a.fromBox.height) * e }
    if t < 1 then { s with viewBox := next }
    else
      let s1 := { s with viewBox := a.target, anim := none }
      match s1.animResolve with
      | some k => { s1 with animResolve := none, micro := s1.micro ++ [k] }
      | none => { s1 with micro := s1.micro ++ [a.resolve] }

/-- `hideEditorialLabel(runId)` (App.tsx lines 973-996): resolve immediately
when no label is active; otherwise mark the label exiting and (re)arm the
860 ms exit timer carrying the captured run id and the promise resolution. -/
def hideEditorialLabel (s : Sys) (runId : ℕ) (k : Cont) : Sys :=
  match s.activeLabel with
  | none => { s with micro := s.micro ++ [k] }
  | some lbl =>
      { s with
        activeLabel := some { countryName := lbl.countryName, phase := LabelPhase.exiting }
        exitTimer := some (runId, k) }

/-- Expiry of the label-exit timer (App.tsx lines 986-994): a stale run id
only resolves; a current one also clears the label. -/
def fireExitTimer (s : Sys) : Sys :=
  match s.exitTimer with
  | none => s
  | some rk =>
    if rk.1 ≠ s.runId then { s with exitTimer := none, micro := s.micro ++ [rk.2] }
    else { s with activeLabel := none, exitTimer := none, micro := s.micro ++ [rk.2] }

/-- `showEditorialLabel(countryName, runId)` (App.tsx lines 998-1006): mount
the label as `entering` and defer the flip to `visible` to the next frame. -/
def showEditorialLabel (s : Sys) (countryName : String) (runId : ℕ) : Sys :=
  { s with
    activeLabel := some { countryName := countryName, phase := LabelPhase.entering }
    pendingFlip := some (countryName, runId) }

/-- The deferred entering → visible flip (App.tsx lines 1000-1005), guarded
by the run id and by the label still naming the same country. -/
def fireFlip (s : Sys) : Sys :=
  match s.pendingFlip with
  | none => s
  | some cr =>
    let s1 := { s with pendingFlip := none }
    if cr.2 ≠ s.runId then s1
    else
      { s1 with activeLabel :=
          match s1.activeLabel with
          | some l =>
              if l.countryName = cr.1 then some ⟨cr.1, LabelPhase.visible⟩ else some l
          | none => none }

/-- Resume a resolved continuation (the remainder of `execute`, App.tsx
lines 1024-1040): `cb` is the `countryBounds` lookup, `startAt` the clock
reading for any animation the continuation starts. -/
def runCont (s : Sys) (cb : String → Option (Bounds ℚ)) (startAt : ℚ) (k : Cont) : Sys :=
  match k with
  | Cont.finished => s
  | Cont.afterHide c rid =>
    if rid ≠ s.runId then s
    else
      match cb c with
      | none => animateViewBox s FULL_VIEWBOX ZOOM_ANIMATION_MS startAt Cont.finished
      | some b =>
          animateViewBox s (viewBoxForCountry c b) ZOOM_ANIMATION_MS startAt
            (Cont.afterZoom c rid)
  | Cont.afterZoom c rid =>
    if rid ≠ s.runId then s
    else showEditorialLabel s c rid

/-- Pop and run the oldest pending microtask. -/
def runMicro (s : Sys) (cb : String → Option (Bounds ℚ)) (startAt : ℚ) : Sys :=
  match s.micro with
  | [] => s
  | k :: rest => runCont { s with micro := rest } cb startAt k

/-- The synchronous part of the selection effect (App.tsx lines 1008-1043):
bump the run id, cancel a pending exit timer, then either reset to the full
viewBox (selection "all": label cleared synchronously, reset-duration
animation, nothing left to do) or start hiding the current label, leaving
`afterHide` to continue once that resolves. -/
def selectEffect (s : Sys) (selected : String) (startAt : ℚ) : Sys :=
  let rid := s.runId + 1
  let s1 := { s with runId := rid, exitTimer := none }
  if selected = "all" then
    animateViewBox { s1 with activeLabel := none } FULL_VIEWBOX RESET_ANIMATION_MS startAt
      Cont.finished
  else
    hideEditorialLabel s1 rid (Cont.afterHide selected rid)

/-- Initial component state (App.tsx lines 834-846): full viewBox, no label,
nothing pending. -/
def initSys : Sys :=
  { runId := 0, activeLabel := none, viewBox := FULL_VIEWBOX, anim := none,
    animResolve := none, exitTimer := none, pendingFlip := none, micro := [] }

/-- C6: when every field of the target is within 0.01 of the current
viewBox, `animateViewBox` immediately commits exactly the target and
resolves its promise, and neither cancels the scheduled animation nor
starts a new one (every other field of the state is untouched). -/
theorem animateViewBox_fast_path (s : Sys) (target : ViewBox ℚ) (d t0 : ℚ) (k : Cont)
    (h : boxesAlmostEqual s.viewBox target = true) :
    animateViewBox s target d t0 k =
      { s with viewBox := target, micro := s.micro ++ [k] } := by
  rw [animateViewBox, if_pos h]

attribute [local semireducible] Rat.add Rat.sub Rat.mul Rat.inv in
/-- Witness for C6: a target 0.005 away on x from the full viewBox. -/
theorem animateViewBox_fast_path_witness :
    boxesAlmostEqual initSys.viewBox ⟨1 / 200, 0, 960, 620⟩ = true ∧
    animateViewBox initSys ⟨1 / 200, 0, 960, 620⟩ 360 0 Cont.finished =
      { initSys with viewBox := ⟨1 / 200, 0, 960, 620⟩,
                     micro := initSys.micro ++ [Cont.finished] } :=
  ⟨by decide,
   animateViewBox_fast_path initSys ⟨1 / 200, 0, 960, 620⟩ 360 0 Cont.finished (by decide)⟩

/-- The projected screen bounds used in the C2 race. -/
def thaiBounds : Bounds ℚ := { minX := 500, minY := 300, maxX := 600, maxY := 400 }

/-- A `countryBounds` lookup knowing one country. -/
def raceCb : String → Option (Bounds ℚ) :=
  fun n => if n = "タイ" then some thaiBounds else none

/-- The C2 race, step by step: select a country (run 1); its `afterHide`
microtask starts the zoom-in; select "all" (run 2) before any animation
frame has fired — the current viewBox is still exactly the full one, so run
2's `animateViewBox(FULL_VIEWBOX)` takes the epsilon fast path, which does
NOT cancel run 1's scheduled animation; drain run 2's resolution; run 1's
animation then completes (t = 1) and commits its country target; its stale
`afterZoom` is silenced by the run-id guard. -/
def raceTrace : Sys :=
  let s1 := selectEffect initSys "タイ" 0
  let s2 := runMicro s1 raceCb 0
  let s3 := selectEffect s2 "all" 5
  let s4 := runMicro s3 raceCb 5
  let s5 := stepAnim s4 360
  runMicro s5 raceCb 360

attribute [local semireducible] Rat.add Rat.sub Rat.mul Rat.inv in
/-- C2 fails on the code: selecting "all" before the zoom-in's first frame
leaves the superseded animation running; at quiescence (no pending anim,
微task, timer or flip) no label is active — that half of the claim holds —
but the committed viewBox is the country viewBox, not the full canvas. -/
theorem select_all_race_ends_zoomed :
    raceTrace.activeLabel = none ∧
    raceTrace.anim = none ∧ raceTrace.animResolve = none ∧
    raceTrace.exitTimer = none ∧ raceTrace.pendingFlip = none ∧ raceTrace.micro = [] ∧
    raceTrace.viewBox = viewBoxForCountry "タイ" thaiBounds ∧
    raceTrace.viewBox ≠ FULL_VIEWBOX := by
  decide

end AseanMap
